import Mathlib

/-!
Verification development for the `cv-07_image-classification` training
harness.  The definitions below are a shallow embedding of the parts of
`train.py` and `architecture/model.py` that the specification's claims are
about: per-epoch validation-metric aggregation, the best/last checkpoint
policy of each of the three training variants, the fold-mode selection and
top-level mode dispatch, the early-stopping loop, the `drop_last` batching
of the validation `DataLoader`, the `increment_path` run-directory helper
and the `MyEnsemble.forward` combination rule.  Losses, accuracies and
learning rates are real-valued floats in the source; they are modelled as
rationals (`ℚ`) except for the ensemble, whose softmax requires `Real.exp`.
-/

namespace CV07

/- ===================== Validation-metric aggregation =====================
A validation batch is a pair `(preds, labels)` of equal-length lists of
class ids; `preds` is the argmax the model produced for each example
(`preds = torch.argmax(outs, dim=-1)` in `train.py`). -/

/-- Embeds `acc_item = (labels == preds).sum().item()` (train.py:425/618): the
number of positions where the predicted class equals the label. -/
def acc_item (preds labels : List ℕ) : ℕ :=
  (preds.zip labels).countP fun pl => pl.1 == pl.2

/-- Embeds `val_acc_items` (train.py:427/620): per-batch correct counts collected
over the epoch's validation pass. -/
def val_acc_items (bs : List (List ℕ × List ℕ)) : List ℕ :=
  bs.map fun b => acc_item b.1 b.2

/-- Total number of correct predictions over the validation pass,
`np.sum(val_acc_items)`. -/
def totalCorrect (bs : List (List ℕ × List ℕ)) : ℕ :=
  (val_acc_items bs).sum

/-- Total number of examples actually scored during the validation pass
(the sum of the batch sizes the loader yielded). -/
def totalExamples (bs : List (List ℕ × List ℕ)) : ℕ :=
  (bs.map fun b => b.2.length).sum

/-- Plain variant, train.py:630:
`val_acc = np.sum(val_acc_items) / len(val_set)`. -/
def val_acc_plain (bs : List (List ℕ × List ℕ)) (valSetSize : ℕ) : ℚ :=
  (totalCorrect bs : ℚ) / (valSetSize : ℚ)

/-- Fold variant, train.py:438:
`val_acc = np.sum(val_acc_items) / int(len(dataset) * (1 / num_folds))`.
The float expression `int(N * (1 / k))` is embedded as natural floor
division `N / k`; at every concrete `N`, `k` used in the theorems below the
two agree. -/
def val_acc_fold (bs : List (List ℕ × List ℕ)) (N k : ℕ) : ℚ :=
  (totalCorrect bs : ℚ) / ((N / k : ℕ) : ℚ)

/-- Sizes of the `k` validation folds produced by `sklearn` `KFold`
(train.py:297), as documented by sklearn: the first `n % k` folds have
`n / k + 1` examples, the remaining ones `n / k`.  `shuffle=True` permutes
which indices land in which fold but not the fold sizes. -/
def kfoldValSizes (n k : ℕ) : List ℕ :=
  (List.range k).map fun i => if i < n % k then n / k + 1 else n / k

/- ===================== Checkpoint policy =====================
Per-fold mutable state of the plain (`train`) and fold (`train_with_fold`)
variants: `best_val_acc = 0` and `best_val_loss = np.inf` before the first
epoch (train.py:370-371/556-557).  `np.inf` is modelled by `none`. -/

structure RunState where
  best_val_acc : ℚ
  best_val_loss : Option ℚ
deriving DecidableEq, Repr

/-- Initial state: `best_val_acc = 0`, `best_val_loss = np.inf` (train.py:370-371). -/
def initRunState : RunState := ⟨0, none⟩

/-- Embeds `min(best_val_loss, val_loss)` with `none` standing for `np.inf`. -/
def minLoss : Option ℚ → ℚ → Option ℚ
  | none, l => some l
  | some b, l => some (min b l)

/-- Embeds `val_loss < best_val_loss` with `none` standing for `np.inf`. -/
def ltLoss (l : ℚ) : Option ℚ → Bool
  | none => true
  | some b => l < b

/-- One end-of-epoch checkpoint decision of the plain/fold variants
(train.py:439-443 and 631-635): first `best_val_loss = min(best_val_loss,
val_loss)`, then the best snapshot is saved iff `val_acc > best_val_acc`.
Returns the new state and whether the best checkpoint was overwritten. -/
def foldEpochStep (s : RunState) (val_acc val_loss : ℚ) : RunState × Bool :=
  if s.best_val_acc < val_acc then
    (⟨val_acc, minLoss s.best_val_loss val_loss⟩, true)
  else
    (⟨s.best_val_acc, minLoss s.best_val_loss val_loss⟩, false)

/-- One end-of-epoch checkpoint decision of the CutMix variant
(train.py:249-253): the best snapshot is saved iff
`val_loss < best_val_loss`; no accuracy is computed at all. -/
def cutmixEpochStep (best_val_loss : Option ℚ) (val_loss : ℚ) :
    Option ℚ × Bool :=
  if ltLoss val_loss best_val_loss then (some val_loss, true)
  else (best_val_loss, false)

/- ===================== Persistence layout ===================== -/

/-- The three training-loop variants of `train.py`. -/
inductive Variant
  | plain  -- `train`
  | fold   -- `train_with_fold`
  | cutmix -- `train_with_cutmix`
deriving DecidableEq, Repr

/-- Destination of the best snapshot: `f"{save_dir}/best.pth"`
(train.py:442/634) for the plain and fold variants, the bare relative
filename `"best.pth"` (train.py:252) for the CutMix variant. -/
def bestPath : Variant → String → String
  | Variant.cutmix, _ => "best.pth"
  | _, d => d ++ "/best.pth"

/-- Destination of the last snapshot: `f"{save_dir}/last.pth"`
(train.py:444/636) or the bare `"last.pth"` (train.py:254). -/
def lastPath : Variant → String → String
  | Variant.cutmix, _ => "last.pth"
  | _, d => d ++ "/last.pth"

/-- The run-configuration JSON: `save_dir/config.json` is written by the
plain and fold variants (train.py:366-367/553-554); `train_with_cutmix`
never writes one. -/
def configPath : Variant → String → Option String
  | Variant.cutmix, _ => none
  | _, d => some (d ++ "/config.json")

/-- The `torch.save` calls one epoch performs, in program order: the best
snapshot when the policy fired, then unconditionally the last snapshot,
both with the current parameters `p`. -/
def epochWrites {α : Type} (v : Variant) (d : String) (newBest : Bool)
    (p : α) : List (String × α) :=
  (if newBest then [(bestPath v d, p)] else []) ++ [(lastPath v d, p)]

/-- Replay a list of writes over a store mapping paths to contents; later
writes overwrite earlier ones. -/
def applyWrites {α : Type} (ws : List (String × α))
    (store : String → Option α) : String → Option α :=
  ws.foldl (fun st w => fun q => if q = w.1 then some w.2 else st q) store

/- ===================== Fold-mode selection and dispatch ===================== -/

/-- Outcome of the `args.mode` check inside `train_with_fold`
(train.py:295-310).  For `"k"` and `"s"` the local `splitted_fold` is
assigned; for `"g"` only `fold = GroupKFold(...)` is assigned and
`splitted_fold` is left unbound, so the subsequent
`for fold, ... in enumerate(splitted_fold)` (train.py:314) raises
`UnboundLocalError` before any fold is trained; any other mode prints the
unknown-mode message and calls `exit()`. -/
inductive SplitOutcome
  | kSplit
  | sSplit
  | crashUnbound
  | exitUnknown
deriving DecidableEq, Repr

/-- The mode dispatch of `train_with_fold` (train.py:296-310). -/
def selectSplit (mode : String) : SplitOutcome :=
  if mode = "k" then SplitOutcome.kSplit
  else if mode = "s" then SplitOutcome.sSplit
  else if mode = "g" then SplitOutcome.crashUnbound
  else SplitOutcome.exitUnknown

/-- Whether the mode check actually yields a sequence of folds to train
over. -/
def foldsProduced : SplitOutcome → Bool
  | SplitOutcome.kSplit => true
  | SplitOutcome.sSplit => true
  | _ => false

/-- The top-level mode dispatch of `__main__` (train.py:695-700): which
training function is invoked and what error output the dispatch itself
emits.  The `if/elif` chain has no `else` branch, so an unrecognized mode
falls through: no training function is called and no error is printed. -/
def mainDispatch (mode : String) : Option Variant × Option String :=
  if mode = "plain" then (some Variant.plain, none)
  else if mode = "k" || mode = "s" || mode = "g" then (some Variant.fold, none)
  else if mode = "cutmix" then (some Variant.cutmix, none)
  else (none, none)

/- ===================== Early stopping =====================
Modelled from the spec: the `EarlyStopping` class is imported from
`common/pytorchtools` (train.py:29), a repository file that is not under
`src/`; its behaviour is taken from the spec's section 4.4: the state is a
best-seen loss and a patience counter; a submitted loss that strictly
decreases the best-seen loss resets the counter to 0, any other submission
increments it, and the stopper transitions to stopped when the counter
reaches `patience`. -/

structure ESState where
  best : Option ℚ
  counter : ℕ
  early_stop : Bool
deriving DecidableEq, Repr

/-- Fresh stopper state (train.py:466 constructs it before the epoch
loop). -/
def ESInit : ESState := ⟨none, 0, false⟩

/-- Modelled from the spec: one `early_stopping(val_loss, model)` call.
The first call records the loss as best-seen; afterwards a strictly
smaller loss resets the counter, otherwise the counter increments and the
stopper stops once it has counted `patience` consecutive
non-improvements.  `stopped` is terminal. -/
def ESState.call (patience : ℤ) (s : ESState) (loss : ℚ) : ESState :=
  match s.best with
  | none => ⟨some loss, 0, s.early_stop⟩
  | some b =>
    if loss < b then ⟨some loss, 0, s.early_stop⟩
    else ⟨some b, s.counter + 1,
          s.early_stop || (patience ≤ (s.counter : ℤ) + 1)⟩

/-- The epoch loop of `train` (train.py:558,651-654): each epoch produces a
validation loss; afterwards, only when `args.early_stopping > 0`, the
stopper is invoked and a `break` follows immediately when it reports
stopped.  Returns the number of completed epochs; the epoch budget is the
length of the loss list. -/
def epochLoop (patience : ℤ) (s : ESState) : List ℚ → ℕ
  | [] => 0
  | l :: rest =>
    if 0 < patience then
      if (ESState.call patience s l).early_stop then 1
      else 1 + epochLoop patience (ESState.call patience s l) rest
    else 1 + epochLoop patience s rest

/-- Index (0-based) of the first call that puts the stopper into the
stopped state, if any. -/
def stoppedAfter (patience : ℤ) (s : ESState) : List ℚ → Option ℕ
  | [] => none
  | l :: rest =>
    if (ESState.call patience s l).early_stop then some 0
    else (stoppedAfter patience (ESState.call patience s l) rest).map (· + 1)

/- ===================== drop_last batching ===================== -/

/-- The batching a `DataLoader` with `drop_last=True` performs on the
validation set (train.py:525-532, 338-345, 168-175): batch `i` holds the
examples at positions `[i*b, i*b + b)` and only the `len / b` full batches
are yielded; a trailing partial batch is dropped. -/
def dropLastChunks {α : Type} (b : ℕ) (xs : List α) : List (List α) :=
  (List.range (xs.length / b)).map fun i => (xs.drop (i * b)).take b

/- ===================== increment_path ===================== -/

/-- Remainder of `d` after the literal prefix `p`, when `p` is a prefix. -/
def listIsPre : List Char → List Char → Option (List Char)
  | [], d => some d
  | _ :: _, [] => none
  | p :: ps, c :: cs => if p = c then listIsPre ps cs else none

/-- Final path component: the characters after the last `'/'`. -/
def lastComponent (s : List Char) : List Char :=
  s.foldl (fun acc c => if c = '/' then [] else acc ++ [c]) []

/-- Embeds `pathlib.Path(...).stem`: the final component with its extension
(the part from the last dot onwards) removed; a name whose only dot is the
leading one, or that has no dot, is kept whole. -/
def stemChars (name : List Char) : List Char :=
  match name.reverse.dropWhile (fun c => c != '.') with
  | '.' :: rest => if rest = [] then name else rest.reverse
  | _ => name

/-- Embeds the `glob.glob` membership test for the pattern path-then-star:
`d` matches when `path` is a
literal prefix of `d` and the remainder contains no `'/'` (a glob `*` does
not cross directory separators). -/
def globStarMatch (pat d : List Char) : Bool :=
  match listIsPre pat d with
  | some rest => rest.all fun c => c != '/'
  | none => false

/-- Decimal value of a digit string. -/
def digitsToNat (ds : List Char) : ℕ :=
  ds.foldl (fun a c => 10 * a + (c.toNat - 48)) 0

/-- Embeds the regex search of train.py:114, stem followed by at least one
digit: the leftmost position
where `stem` occurs immediately followed by at least one digit; the
captured group is the maximal digit run there. -/
def searchNum (stem : List Char) : List Char → Option ℕ
  | [] => none
  | c :: cs =>
    match listIsPre stem (c :: cs) with
    | some (r :: rs) =>
      if r.isDigit then some (digitsToNat ((r :: rs).takeWhile Char.isDigit))
      else searchNum stem cs
    | _ => searchNum stem cs

/-- The integers `i` of train.py:113-115: one per glob-matched existing
entry from which the regex search extracts a number. -/
def extractedNums (fs : List String) (path : String) : List ℕ :=
  (fs.filter fun d => globStarMatch path.toList d.toList).filterMap
    fun d => searchNum (stemChars (lastComponent path.toList)) d.toList

/-- Embeds `n = max(i) + 1 if i else 2` (train.py:116). -/
def nextRunNumber (l : List ℕ) : ℕ :=
  match l with
  | [] => 2
  | _ :: _ => l.foldr max 0 + 1

/-- Embeds `increment_path` (train.py:98-117) over a filesystem modelled as the
list `fs` of existing entries: the path is returned unchanged when it does
not exist or `exist_ok` is set, otherwise the computed run number is
appended. -/
def increment_path (fs : List String) (path : String)
    (exist_ok : Bool) : String :=
  if (fs.contains path && exist_ok) || !(fs.contains path) then path
  else path ++ Nat.repr (nextRunNumber (extractedNums fs path))

/-- Concrete validation batches realizing the spec's aggregation example:
batch sizes 10, 10 and 5 with 8, 9 and 4 correct predictions. -/
def specExampleBatches : List (List ℕ × List ℕ) :=
  [(List.replicate 8 0 ++ List.replicate 2 1, List.replicate 10 0),
   (List.replicate 9 0 ++ [1], List.replicate 10 0),
   (List.replicate 4 0 ++ [1], List.replicate 5 0)]

/- ===================== MyEnsemble ===================== -/

/-- Embeds `torch.softmax(out, dim=-1)` over a score vector
(architecture/model.py:153). -/
noncomputable def mySoftmax {n : ℕ} (v : Fin n → ℝ) : Fin n → ℝ :=
  fun i => Real.exp (v i) / ∑ j, Real.exp (v j)

namespace MyEnsemble

/-- Embeds `MyEnsemble.forward` (architecture/model.py:145-155): the five member
models' score vectors are summed and the sum is softmax-normalized.  The
member models are abstract functions from inputs to score vectors. -/
noncomputable def forward {α : Type} {n : ℕ}
    (mA mB mC mD mE : α → Fin n → ℝ) (x : α) : Fin n → ℝ :=
  mySoftmax (fun i => mA x i + mB x i + mC x i + mD x i + mE x i)

end MyEnsemble

/-- Modelled from the spec's words only, for comparison with
`MyEnsemble.forward`: "averaging the models' softmax outputs" — the mean
of the five members' individually softmax-normalized score vectors. -/
noncomputable def avgSoftmaxFive {α : Type} {n : ℕ}
    (mA mB mC mD mE : α → Fin n → ℝ) (x : α) : Fin n → ℝ :=
  fun i => (mySoftmax (mA x) i + mySoftmax (mB x) i + mySoftmax (mC x) i
    + mySoftmax (mD x) i + mySoftmax (mE x) i) / 5

/- ============================================================
   Theorems
   ============================================================ -/

/-- Helper: a batch cannot contain more correct predictions than labels. -/
theorem acc_item_le (preds labels : List ℕ) :
    acc_item preds labels ≤ labels.length :=
  le_trans (List.countP_le_length _)
    (by rw [List.length_zip]; exact min_le_right _ _)

/-- Helper: the total correct count never exceeds the number of scored
examples. -/
theorem totalCorrect_le (bs : List (List ℕ × List ℕ)) :
    totalCorrect bs ≤ totalExamples bs := by
  induction bs with
  | nil => simp [totalCorrect, totalExamples, val_acc_items]
  | cons b bs ih =>
    simp only [totalCorrect, totalExamples, val_acc_items, List.map_cons,
      List.sum_cons] at *
    exact Nat.add_le_add (acc_item_le b.1 b.2) ih

/-- Helper: closed form for a sum of threshold-split summands over a
range. -/
theorem sum_range_if (q m k : ℕ) :
    ((List.range k).map fun i => if i < m then q + 1 else q).sum
      = k * q + min m k := by
  induction k with
  | zero => simp
  | succ k ih =>
    rw [List.range_succ, List.map_append, List.sum_append, ih]
    simp only [List.map_cons, List.map_nil, List.sum_cons, List.sum_nil,
      Nat.add_zero]
    by_cases h : k < m
    · rw [if_pos h, min_eq_right (le_of_lt h),
        min_eq_right (by omega : k + 1 ≤ m)]
      ring
    · rw [if_neg h, min_eq_left (by omega : m ≤ k),
        min_eq_left (by omega : m ≤ k + 1)]
      ring

/-- Helper: the documented KFold fold sizes partition the dataset. -/
theorem kfoldValSizes_sum (n k : ℕ) (hk : 0 < k) :
    (kfoldValSizes n k).sum = n := by
  unfold kfoldValSizes
  rw [sum_range_if, min_eq_left (le_of_lt (Nat.mod_lt n hk))]
  exact Nat.div_add_mod n k

/-- Claim C1 (amended).  In the plain variant the reported validation
accuracy equals the total correct predictions divided by `len(val_set)`,
which is the total-correct-over-total-scored ratio whenever the pass
covers the whole set; the numerator can never exceed the example count.
In the fold variant the denominator is the constant `int(len(dataset) *
(1 / num_folds))`; the actual KFold validation-fold sizes sum to the
dataset size, and whenever `k` does not divide `N` some fold has
`N / k + 1` validation examples, which differs from the code's
denominator. -/
theorem C1_val_accuracy (bs : List (List ℕ × List ℕ)) (valSetSize N k : ℕ)
    (hsz : totalExamples bs = valSetSize) (hk : 0 < k) :
    val_acc_plain bs valSetSize
      = (totalCorrect bs : ℚ) / (totalExamples bs : ℚ) ∧
    totalCorrect bs ≤ totalExamples bs ∧
    val_acc_fold bs N k = (totalCorrect bs : ℚ) / ((N / k : ℕ) : ℚ) ∧
    (kfoldValSizes N k).sum = N ∧
    (N % k ≠ 0 → N / k + 1 ∈ kfoldValSizes N k ∧ N / k + 1 ≠ N / k) := by
  refine ⟨?_, totalCorrect_le bs, rfl, kfoldValSizes_sum N k hk, ?_⟩
  · rw [← hsz]; rfl
  · intro hmod
    refine ⟨?_, by omega⟩
    simp only [kfoldValSizes, List.mem_map, List.mem_range]
    exact ⟨0, hk, by rw [if_pos (Nat.pos_of_ne_zero hmod)]⟩

/-- Claim C1 counterexample.  A 5-fold run over 26 examples has a fold
with 6 validation examples (the first entry of `kfoldValSizes 26 5`);
scoring that fold in one full batch with all 6 predictions correct makes
the code report `6 / 5 = 1.2`, whereas total-correct over the actual
fold-specific validation-set size is `6 / 6 = 1`.  The claim's required
value and the reported value differ. -/
theorem C1_counterexample :
    val_acc_fold [(List.replicate 6 0, List.replicate 6 0)] 26 5 = 6 / 5 ∧
    totalExamples [(List.replicate 6 0, List.replicate 6 0)] = 6 ∧
    (6 : ℚ) / 5 ≠ 6 / 6 ∧
    kfoldValSizes 26 5 = [6, 5, 5, 5, 5] := by
  refine ⟨?_, by decide, by norm_num, by decide⟩
  have h : totalCorrect [(List.replicate 6 0, List.replicate 6 0)] = 6 := by
    decide
  simp only [val_acc_fold, h]
  norm_num

/-- Claim C1 witness: the spec's example, batches of sizes 10, 10 and 5
with 8, 9 and 4 correct, yields 21 / 25 in the plain variant. -/
theorem C1_witness :
    val_acc_plain specExampleBatches 25 = 21 / 25 ∧
    totalCorrect specExampleBatches ≤ 25 ∧
    (6 : ℕ) ∈ kfoldValSizes 26 5 := by
  have h := C1_val_accuracy specExampleBatches 25 26 5 (by decide) (by decide)
  refine ⟨?_, le_of_le_of_eq h.2.1 (by decide), ?_⟩
  · have hc : totalCorrect specExampleBatches = 21 := by decide
    have he : totalExamples specExampleBatches = 25 := by decide
    rw [h.1, hc, he]
    norm_num
  · simpa using (h.2.2.2.2 (by decide)).1

/-- Claim C2 (amended).  In the plain and fold variants the best
checkpoint is overwritten exactly when the epoch's validation accuracy
strictly exceeds the best accuracy seen so far (initialized to 0); ties
and regressions never fire; the tracked loss becomes the minimum seen and
has no influence on the decision.  In the CutMix variant the decision is
instead loss-driven: the best checkpoint is overwritten exactly when the
validation loss strictly improves on the minimum seen (initialized to
infinity). -/
theorem C2_checkpoint_policy :
    (∀ (s : RunState) (a l : ℚ),
      ((foldEpochStep s a l).2 = true ↔ s.best_val_acc < a) ∧
      (foldEpochStep s a l).1.best_val_loss = minLoss s.best_val_loss l ∧
      (foldEpochStep s a l).1.best_val_acc
        = (if s.best_val_acc < a then a else s.best_val_acc) ∧
      (∀ bl : Option ℚ,
        (foldEpochStep ⟨s.best_val_acc, bl⟩ a l).2
          = (foldEpochStep s a l).2)) ∧
    initRunState = ⟨0, none⟩ ∧
    (∀ (b : Option ℚ) (l : ℚ), (cutmixEpochStep b l).2 = ltLoss l b) := by
  refine ⟨?_, rfl, ?_⟩
  · intro s a l
    refine ⟨?_, ?_, ?_, fun bl => ?_⟩ <;>
      simp only [foldEpochStep] <;> split_ifs <;> simp_all
  · intro b l
    simp only [cutmixEpochStep]
    split_ifs with h <;> simp [h]

/-- Claim C2 counterexample.  In the CutMix variant the tracked
minimum-seen loss alone determines whether the best checkpoint is
overwritten: with best-seen loss at infinity a submitted loss of 1
overwrites the best checkpoint, while with best-seen loss 0 the same
submission does not — no validation accuracy exists in that variant at
all, refuting both the accuracy-driven rule and the independence of the
decision from the tracked loss. -/
theorem C2_counterexample :
    (cutmixEpochStep none 1).2 = true ∧
    (cutmixEpochStep (some 0) 1).2 = false := by
  exact ⟨by decide, by decide⟩

/-- Claim C3.  With `args.mode = "g"` the mode check of `train_with_fold`
assigns `fold = GroupKFold(n_splits=num_folds)` but never assigns
`splitted_fold`, so the fold loop raises `UnboundLocalError`: no grouped
folds are produced and training never proceeds, contradicting the claim
that `k` group-disjoint folds are produced and trained over. -/
theorem C3_grouped_crash :
    selectSplit "g" = SplitOutcome.crashUnbound ∧
    foldsProduced (selectSplit "g") = false := by
  exact ⟨by decide, by decide⟩

/-- Claim C5 (amended).  The plain and fold variants persist the best and
last snapshots into the run/fold-specific save directory and write
`config.json` next to them; the CutMix variant instead writes the bare
relative filenames `best.pth` and `last.pth` — ignoring its computed save
directory — and writes no configuration JSON. -/
theorem C5_save_layout {α : Type} (d : String) (nb : Bool) (p : α) :
    (epochWrites Variant.plain d nb p).map Prod.fst
      = (if nb then [d ++ "/best.pth", d ++ "/last.pth"]
         else [d ++ "/last.pth"]) ∧
    (epochWrites Variant.fold d nb p).map Prod.fst
      = (if nb then [d ++ "/best.pth", d ++ "/last.pth"]
         else [d ++ "/last.pth"]) ∧
    configPath Variant.plain d = some (d ++ "/config.json") ∧
    configPath Variant.fold d = some (d ++ "/config.json") ∧
    (epochWrites Variant.cutmix d nb p).map Prod.fst
      = (if nb then ["best.pth", "last.pth"] else ["last.pth"]) ∧
    configPath Variant.cutmix d = none := by
  cases nb <;>
    simp [epochWrites, bestPath, lastPath, configPath]

/-- Claim C5 counterexample.  In the CutMix variant the best snapshot is
written to the bare relative path `best.pth`, not into the computed save
directory, and no configuration JSON is written. -/
theorem C5_counterexample :
    bestPath Variant.cutmix "model/exp" = "best.pth" ∧
    bestPath Variant.cutmix "model/exp" ≠ "model/exp" ++ "/best.pth" ∧
    configPath Variant.cutmix "model/exp" = none := by
  refine ⟨rfl, by decide, rfl⟩

/-- Claim C6 (amended).  An unrecognized mode string at the top-level
dispatch is a silent no-op: the `if/elif` chain has no `else`, so no
training function is invoked and no error is surfaced.  The unknown-mode
message and `exit()` live only inside `train_with_fold`, which the
dispatch invokes solely for the modes `k`, `s` and `g`, so that error
path is unreachable from the top level. -/
theorem C6_unknown_mode (m : String) :
    (m ∉ (["plain", "k", "s", "g", "cutmix"] : List String) →
      mainDispatch m = (none, none)) ∧
    ((mainDispatch m).1 = some Variant.fold
      ↔ m ∈ (["k", "s", "g"] : List String)) ∧
    (m ∉ (["k", "s", "g"] : List String) →
      selectSplit m = SplitOutcome.exitUnknown) := by
  refine ⟨?_, ?_, ?_⟩
  · intro h
    simp only [List.mem_cons, List.not_mem_nil, or_false, not_or] at h
    obtain ⟨h1, h2, h3, h4, h5⟩ := h
    simp [mainDispatch, h1, h2, h3, h4, h5]
  · by_cases h1 : m = "plain" <;> by_cases h2 : m = "k" <;>
      by_cases h3 : m = "s" <;> by_cases h4 : m = "g" <;>
      by_cases h5 : m = "cutmix" <;>
      simp [mainDispatch, h1, h2, h3, h4, h5]
  · intro h
    simp only [List.mem_cons, List.not_mem_nil, or_false, not_or] at h
    obtain ⟨h2, h3, h4⟩ := h
    simp [selectSplit, h2, h3, h4]

/-- Claim C6 counterexample.  At the unrecognized mode string `"x"` the
top-level dispatch invokes no training function and emits no error
output, whereas the claim requires a surfaced fatal `UnknownMode`
failure. -/
theorem C6_counterexample : mainDispatch "x" = (none, none) := by decide

/-- Claim C6 witness. -/
theorem C6_witness :
    mainDispatch "mystery" = (none, none) ∧
    selectSplit "mystery" = SplitOutcome.exitUnknown := by
  exact ⟨(C6_unknown_mode "mystery").1 (by decide),
    (C6_unknown_mode "mystery").2.2 (by decide)⟩

/-- Claim C7.  In every training variant, replaying the save calls of any
completed epoch over any prior artifact store leaves the last-checkpoint
path holding exactly the current epoch's model parameters, whether or not
a new best was found. -/
theorem C7_last_checkpoint {α : Type} (v : Variant) (d : String)
    (nb : Bool) (p : α) (store : String → Option α) :
    applyWrites (epochWrites v d nb p) store (lastPath v d) = some p := by
  cases v <;> cases nb <;> simp [applyWrites, epochWrites]

/-- Helper: with a non-positive patience the stopper guard is never taken
and the epoch loop consumes the full budget. -/
theorem epochLoop_no_patience (p : ℤ) (hp : p ≤ 0) :
    ∀ (losses : List ℚ) (s : ESState),
      epochLoop p s losses = losses.length := by
  intro losses
  induction losses with
  | nil => intro s; rfl
  | cons l rest ih =>
    intro s
    rw [epochLoop, if_neg (by omega), ih]
    simp [Nat.add_comm]

/-- Helper: with positive patience the loop completes exactly one epoch
past the first stopping call, or the full budget when the stopper never
fires. -/
theorem epochLoop_stoppedAfter (p : ℤ) (hp : 0 < p) :
    ∀ (losses : List ℚ) (s : ESState),
      epochLoop p s losses =
        match stoppedAfter p s losses with
        | some i => i + 1
        | none => losses.length := by
  intro losses
  induction losses with
  | nil => intro s; rfl
  | cons l rest ih =>
    intro s
    rw [epochLoop, stoppedAfter, if_pos hp]
    by_cases h : (ESState.call p s l).early_stop
    · rw [if_pos h, if_pos h]
    · rw [if_neg h, if_neg h, ih]
      cases stoppedAfter p (ESState.call p s l) rest <;>
        simp [Nat.add_comm]

/-- Claim C4.  The early stopper (modelled from the spec, as
`common/pytorchtools` is not under src/) resets its counter on every
strictly improving loss, increments it otherwise, and stops exactly when
the counter has counted `patience` consecutive non-improvements; the
epoch loop of `train` terminates immediately after the stopping call, and
with `args.early_stopping` zero or negative the stopper is never invoked
and the loop always runs the full configured epoch budget. -/
theorem C4_early_stopping :
    (∀ (p : ℤ) (losses : List ℚ), p ≤ 0 →
      epochLoop p ESInit losses = losses.length) ∧
    (∀ (p : ℤ) (s : ESState) (l b : ℚ), s.best = some b → l < b →
      ESState.call p s l = ⟨some l, 0, s.early_stop⟩) ∧
    (∀ (p : ℤ) (s : ESState) (l b : ℚ), s.best = some b → ¬ l < b →
      ESState.call p s l
        = ⟨some b, s.counter + 1,
           s.early_stop || decide (p ≤ (s.counter : ℤ) + 1)⟩) ∧
    (∀ (p : ℤ) (losses : List ℚ), 0 < p →
      epochLoop p ESInit losses =
        match stoppedAfter p ESInit losses with
        | some i => i + 1
        | none => losses.length) := by
  refine ⟨fun p losses hp => epochLoop_no_patience p hp losses ESInit,
    ?_, ?_, fun p losses hp => epochLoop_stoppedAfter p hp losses ESInit⟩
  · intro p s l b hb hl
    simp [ESState.call, hb, hl]
  · intro p s l b hb hl
    simp [ESState.call, hb, hl]

/-- Claim C4 witness: with patience -1 the loop runs all five epochs; an
improving call resets the counter; a non-improving call at counter 1 with
patience 2 stops; with patience 2 the loss sequence 90, 80, 85, 86, 87
completes exactly four epochs (the stopper fires at the fourth call, two
consecutive non-improvements after the best at 80). -/
theorem C4_witness :
    epochLoop (-1) ESInit [90, 80, 85, 86, 87] = 5 ∧
    ESState.call 2 ⟨some 80, 1, false⟩ 70 = ⟨some 70, 0, false⟩ ∧
    ESState.call 2 ⟨some 80, 1, false⟩ 85 = ⟨some 80, 2, true⟩ ∧
    epochLoop 2 ESInit [90, 80, 85, 86, 87] = 4 := by
  refine ⟨C4_early_stopping.1 (-1) _ (by norm_num), ?_, ?_, ?_⟩
  · exact C4_early_stopping.2.1 2 ⟨some 80, 1, false⟩ 70 80 rfl (by norm_num)
  · have h := C4_early_stopping.2.2.1 2 ⟨some 80, 1, false⟩ 85 80 rfl
      (by norm_num)
    rw [h]; decide
  · have h := C4_early_stopping.2.2.2 2 [90, 80, 85, 86, 87] (by norm_num)
    rw [h]; decide

/-- Helper: the concatenation of the first `k` full batches is the prefix
of length `k * b`. -/
theorem dropLastChunks_join_aux {α : Type} (b : ℕ) (xs : List α) :
    ∀ k, k * b ≤ xs.length →
      ((List.range k).map fun i => (xs.drop (i * b)).take b).flatten
        = xs.take (k * b) := by
  intro k
  induction k with
  | zero => simp
  | succ k ih =>
    intro hk
    have hsm : (k + 1) * b = k * b + b := Nat.succ_mul k b
    rw [List.range_succ, List.map_append, List.flatten_append,
      ih (le_trans (by omega : k * b ≤ (k + 1) * b) hk)]
    simp only [List.map_cons, List.map_nil, List.flatten_cons,
      List.flatten_nil, List.append_nil]
    rw [hsm, List.take_add]

/-- Claim C8.  A validation loader built with `drop_last=True` yields
exactly `floor(n / b)` batches, each of exactly `b` examples; together
they cover precisely the first `floor(n / b) * b` examples, so whenever
`b` does not divide the validation-set size the trailing partial batch is
never scored even though the set itself has `n` examples. -/
theorem C8_drop_last {α : Type} (b : ℕ) (xs : List α) :
    (dropLastChunks b xs).length = xs.length / b ∧
    (∀ c ∈ dropLastChunks b xs, c.length = b) ∧
    (dropLastChunks b xs).flatten = xs.take (xs.length / b * b) ∧
    (xs.length % b ≠ 0 →
      ((dropLastChunks b xs).flatten).length < xs.length) := by
  have hdiv : xs.length / b * b ≤ xs.length := Nat.div_mul_le_self _ _
  refine ⟨by simp [dropLastChunks], ?_, dropLastChunks_join_aux b xs _ hdiv,
    ?_⟩
  · intro c hc
    simp only [dropLastChunks, List.mem_map, List.mem_range] at hc
    obtain ⟨i, hi, rfl⟩ := hc
    rw [List.length_take, List.length_drop]
    have hib : i * b + b ≤ xs.length := by
      have h2 : i * b + b = (i + 1) * b := (Nat.succ_mul i b).symm
      rw [h2]
      exact le_trans (Nat.mul_le_mul_right b (Nat.succ_le_of_lt hi)) hdiv
    exact min_eq_left (Nat.le_sub_of_add_le (by rwa [Nat.add_comm] at hib))
  · intro hmod
    have hj : (dropLastChunks b xs).flatten
        = xs.take (xs.length / b * b) := dropLastChunks_join_aux b xs _ hdiv
    rw [hj, List.length_take, min_eq_left hdiv]
    have h1 := Nat.div_add_mod xs.length b
    have h3 : 0 < xs.length % b := Nat.pos_of_ne_zero hmod
    have h4 : 0 < xs.length := lt_of_lt_of_le h3 (Nat.mod_le _ _)
    calc xs.length / b * b = b * (xs.length / b) := Nat.mul_comm _ _
      _ = xs.length - xs.length % b := Nat.eq_sub_of_add_eq h1
      _ < xs.length := Nat.sub_lt h4 h3

/-- Claim C8 witness: 25 examples at batch size 10 yield two full batches
of 10; only 20 of the 25 examples are ever scored. -/
theorem C8_witness :
    (dropLastChunks 10 (List.range 25)).length = 2 ∧
    (List.range 10).length = 10 ∧
    ((dropLastChunks 10 (List.range 25)).flatten).length < 25 := by
  have h := C8_drop_last 10 (List.range 25)
  refine ⟨h.1.trans (by decide), ?_, ?_⟩
  · exact h.2.1 (List.range 10) (by decide)
  · have h4 := h.2.2.2 (by decide)
    simpa using h4

/-- Helper: every member of a list of naturals is bounded by its
`foldr max 0`. -/
theorem mem_le_foldr_max (l : List ℕ) (m : ℕ) (hm : m ∈ l) :
    m ≤ l.foldr max 0 := by
  induction l with
  | nil => cases hm
  | cons a t ih =>
    rcases List.mem_cons.mp hm with rfl | h
    · exact le_max_left _ _
    · exact le_trans (ih h) (le_max_right _ _)

/-- Helper: the chosen run number strictly exceeds every extracted
number. -/
theorem lt_nextRunNumber (l : List ℕ) (m : ℕ) (hm : m ∈ l) :
    m < nextRunNumber l := by
  cases l with
  | nil => cases hm
  | cons a t =>
    have h := mem_le_foldr_max (a :: t) m hm
    simp only [nextRunNumber]
    omega

/-- Claim C10 (amended).  `increment_path` returns the path unchanged when
it does not exist or `exist_ok` is set; otherwise it appends one plus the
maximum of the numbers the regex extracts from the glob-matched existing
entries (2 when none), where each extraction takes the first occurrence
of the stem immediately followed by digits anywhere in the entry's path
string — the entry's trailing numeric suffix only when no earlier
stem-digit occurrence (for example in a parent directory component)
precedes it.  The appended number strictly exceeds every extracted
number. -/
theorem C10_increment_path (fs : List String) (path : String) (ok : Bool) :
    (fs.contains path = false → increment_path fs path ok = path) ∧
    (fs.contains path = true → ok = true →
      increment_path fs path ok = path) ∧
    (fs.contains path = true → ok = false →
      increment_path fs path ok
        = path ++ Nat.repr (nextRunNumber (extractedNums fs path)) ∧
      ∀ m ∈ extractedNums fs path,
        m < nextRunNumber (extractedNums fs path)) := by
  refine ⟨?_, ?_, ?_⟩
  · intro h
    unfold increment_path
    rw [h]
    simp
  · intro h hok
    unfold increment_path
    rw [h, hok]
    simp
  · intro h hok
    refine ⟨?_, fun m hm => lt_nextRunNumber _ m hm⟩
    unfold increment_path
    rw [h, hok]
    simp

/-- Claim C10 counterexample.  With runs stored under the parent
directory `runs/exp1` — whose name contains the stem `exp` followed by a
digit — and existing sibling run directories `runs/exp1/exp2` and
`runs/exp1/exp5`, the regex extracts 1 from every glob match (the parent
component is the leftmost stem-digit occurrence), so `increment_path`
returns `runs/exp1/exp2`: its suffix 2 is not strictly greater than the
existing sibling suffix 5, and the returned name collides with an
existing numbered run directory. -/
theorem C10_counterexample :
    increment_path ["runs/exp1/exp", "runs/exp1/exp2", "runs/exp1/exp5"]
        "runs/exp1/exp" false = "runs/exp1/exp2" ∧
    "runs/exp1/exp2"
      ∈ (["runs/exp1/exp", "runs/exp1/exp2", "runs/exp1/exp5"] :
          List String) ∧
    extractedNums ["runs/exp1/exp", "runs/exp1/exp2", "runs/exp1/exp5"]
        "runs/exp1/exp" = [1, 1, 1] := by
  refine ⟨by decide, by decide, by decide⟩

/-- Claim C10 witness: a fresh path is returned unchanged, and with
well-formed siblings `model/exp2` and `model/exp7` the next run directory
is `model/exp8`. -/
theorem C10_witness :
    increment_path [] "model/exp" false = "model/exp" ∧
    increment_path ["model/exp", "model/exp2", "model/exp7"] "model/exp"
      false = "model/exp8" := by
  constructor
  · exact (C10_increment_path [] "model/exp" false).1 (by decide)
  · have h := ((C10_increment_path
      ["model/exp", "model/exp2", "model/exp7"] "model/exp" false).2.2
      (by decide) rfl).1
    exact h.trans (by decide)

/-- Claim C9 (amended).  `MyEnsemble.forward` combines the five member
models' score vectors by summation followed by softmax normalization, so
its output is a probability vector: the entries are positive and sum to
one.  This is not pointwise equal to averaging the members' softmax
outputs (see the counterexample). -/
theorem C9_ensemble_forward {α : Type} {n : ℕ}
    (mA mB mC mD mE : α → Fin n → ℝ) (x : α) (hn : 0 < n) :
    MyEnsemble.forward mA mB mC mD mE x
      = mySoftmax (fun i => mA x i + mB x i + mC x i + mD x i + mE x i) ∧
    (∑ i, MyEnsemble.forward mA mB mC mD mE x i) = 1 ∧
    (∀ i, 0 < MyEnsemble.forward mA mB mC mD mE x i) := by
  have hne : Nonempty (Fin n) := Fin.pos_iff_nonempty.mp hn
  have hpos :
      0 < ∑ j, Real.exp (mA x j + mB x j + mC x j + mD x j + mE x j) :=
    Finset.sum_pos (fun j _ => Real.exp_pos _) Finset.univ_nonempty
  refine ⟨rfl, ?_, ?_⟩
  · simp only [MyEnsemble.forward, mySoftmax]
    rw [← Finset.sum_div]
    exact div_self (ne_of_gt hpos)
  · intro i
    simp only [MyEnsemble.forward, mySoftmax]
    exact div_pos (Real.exp_pos _) hpos

/-- Claim C9 witness: a one-class ensemble of constant-zero members
outputs a vector summing to one. -/
theorem C9_witness :
    (∑ i, MyEnsemble.forward (fun _ : ℕ => fun _ : Fin 1 => (0 : ℝ))
      (fun _ => fun _ => 0) (fun _ => fun _ => 0) (fun _ => fun _ => 0)
      (fun _ => fun _ => 0) 0 i) = 1 :=
  (C9_ensemble_forward _ _ _ _ _ 0 (by norm_num)).2.1

/-- Claim C9 counterexample.  Softmax of the summed scores is not the
average of the members' softmax outputs: with all five members emitting
the two-class score vector (1, 0), the ensemble assigns class 0 the
probability exp 5 / (exp 5 + 1), while the average of the members'
softmax outputs assigns it exp 1 / (exp 1 + 1), and these differ — so the
code does not realize the averaging-of-softmax-outputs pattern as a
function. -/
theorem C9_counterexample :
    MyEnsemble.forward (fun _ : ℕ => ![(1 : ℝ), 0])
        (fun _ => ![(1 : ℝ), 0]) (fun _ => ![(1 : ℝ), 0])
        (fun _ => ![(1 : ℝ), 0]) (fun _ => ![(1 : ℝ), 0]) 0
      ≠ avgSoftmaxFive (fun _ : ℕ => ![(1 : ℝ), 0])
        (fun _ => ![(1 : ℝ), 0]) (fun _ => ![(1 : ℝ), 0])
        (fun _ => ![(1 : ℝ), 0]) (fun _ => ![(1 : ℝ), 0]) 0 := by
  intro hEq
  have h0 := congrFun hEq 0
  simp only [MyEnsemble.forward, avgSoftmaxFive, mySoftmax,
    Fin.sum_univ_two, Matrix.cons_val_zero, Matrix.cons_val_one,
    Matrix.head_cons, Real.exp_zero] at h0
  norm_num at h0
  have hb : (0 : ℝ) < Real.exp 1 + 1 := by positivity
  have hlt : Real.exp 1 < Real.exp 5 := Real.exp_lt_exp.mpr (by norm_num)
  field_simp [ne_of_gt hb] at h0
  nlinarith [h0, hlt, Real.exp_pos 1, Real.exp_pos 5]

end CV07
